import Mathlib

/-!
Shallow embedding of the employee-data checker (src/app.py) and proofs about
its reconciliation and validation logic.

The program loads three spreadsheet snapshots (prior-period, current-period,
optional retirees), locates header rows by keyword, renames user-chosen
columns onto an internal vocabulary, derives a per-row matching key, runs
duplicate/date/salary validation rules, and classifies employees by an outer
join on the key.  Pandas cells that may be missing (NaN/NaT) are embedded as
`Option` values; numeric salary cells after `pd.to_numeric(errors='coerce')`
are embedded as `Option ℚ`; pandas timestamps are embedded as calendar dates
with an explicit day-number function, so that `(a - b).dt.days` is the
difference of day numbers.
-/

namespace DataCheckApp

/-- Calendar date (the date part of a pandas Timestamp). -/
structure Date where
  year : Nat
  month : Nat
  day : Nat
deriving DecidableEq, Repr

/-- Day number of a Gregorian civil date (days since 1970-01-01), the standard
days-from-civil algorithm.  Pandas timestamp subtraction `( .dt.days )` equals
the difference of these day numbers.  All divisions are on nonnegative
operands for the years occurring in employee data (year ≥ 1). -/
def daysFromCivil (dt : Date) : Int :=
  let y : Int := if dt.month ≤ 2 then (dt.year : Int) - 1 else (dt.year : Int)
  let era : Int := y / 400
  let yoe : Int := y - era * 400
  let mp : Int := ((dt.month : Int) + 9) % 12
  let doy : Int := (153 * mp + 2) / 5 + (dt.day : Int) - 1
  let doe : Int := yoe * 365 + yoe / 4 - yoe / 100 + doy
  era * 146097 + doe - 719468

/-- Zero-padded decimal rendering, as produced by strftime field formats. -/
def padNat (width n : Nat) : String :=
  let s := toString n
  String.mk (List.replicate (width - s.length) '0') ++ s

/-- strftime(date, "%Y%m%d"): 8-digit year-month-day string. -/
def fmtYmd (d : Date) : String := padNat 4 d.year ++ padNat 2 d.month ++ padNat 2 d.day

/-- One employee record after column mapping (src/app.py rename_df_columns):
each canonical field holds `none` where the pandas cell is NaN/NaT.  Cells of
a column that is absent from the table are irrelevant (see `Table`). -/
structure Row where
  empId : Option String := none
  hire : Option Date := none
  birth : Option Date := none
  retire : Option Date := none
  enroll : Option Date := none
  sal1 : Option ℚ := none
deriving DecidableEq, Repr

/-- One loaded table after column mapping.  The `has…` flags embed pandas
column presence (`"_col" in df.columns`): a canonical column exists in the
frame iff its flag is true.  `rows` is the ordered record list. -/
structure Table where
  hasEmpId : Bool := false
  hasHire : Bool := false
  hasBirth : Bool := false
  hasRetire : Bool := false
  hasEnroll : Bool := false
  hasSal1 : Bool := false
  rows : List Row := []
deriving DecidableEq, Repr

/-! ## Header Locator (find_header_and_read_excel, src/app.py lines 17-31) -/

/-- Python substring test `kw in s`, by scanning suffixes of `s`. -/
def strContainsAux (kw : List Char) : List Char → Bool
  | [] => kw.isEmpty
  | c :: rest => kw.isPrefixOf (c :: rest) || strContainsAux kw rest

/-- Python `kw in s` on strings. -/
def strContains (s kw : String) : Bool := strContainsAux kw.data s.data

/-- One raw (header-less) grid row: cells in column order, `none` for NaN.
`rowConcat` is `''.join(map(str, row.dropna().values))`: the concatenation of
the non-null cell values in string form. -/
def rowConcat (row : List (Option String)) : String :=
  String.join (row.filterMap id)

/-- Does a raw row satisfy `all(keyword in row_str for keyword in keywords)`? -/
def rowMatches (keywords : List String) (row : List (Option String)) : Bool :=
  keywords.all (fun kw => strContains (rowConcat row) kw)

/-- Header Locator: scans the grid top-to-bottom and returns the 0-based index
of the first row matching every keyword; `none` embeds the not-found outcome
(`header_row_index == -1`, reported as an error and `None` result). -/
def findHeaderIndex (keywords : List String) : List (List (Option String)) → Option Nat
  | [] => none
  | row :: rest =>
    if rowMatches keywords row then some 0
    else (findHeaderIndex keywords rest).map (fun i => i + 1)

/-! ## Enroll-date fallback (src/app.py lines 265-276, step 1.8) -/

/-- Enroll-date fallback: when an enroll_date column exists, null hire_date
cells are filled from enroll_date if a hire_date column exists, otherwise the
enroll_date column is renamed to hire_date; the enroll_date column is then
dropped.  Tables without an enroll_date column are untouched. -/
def enrollFallback (t : Table) : Table :=
  if t.hasEnroll then
    if t.hasHire then
      { t with hasEnroll := false,
               rows := t.rows.map (fun r =>
                 { r with hire := (match r.hire with
                                   | some h => some h
                                   | none => r.enroll),
                          enroll := none }) }
    else
      { t with hasEnroll := false, hasHire := true,
               rows := t.rows.map (fun r => { r with hire := r.enroll, enroll := none }) }
  else t

/-! ## Retiree-table sourcing (src/app.py lines 256-263, step 1.5)

`retireMapped` embeds `col_retire_date_curr != NONE_OPTION` (the user mapped a
retire-date column for the Current table).  `curr.hasRetire` embeds
`INTERNAL_COLS["retire_date"] in df_curr.columns` (the mapped source column
actually existed, so the rename produced the canonical column).  When the
`elif file_retire:` branch runs while the mapping is non-sentinel, the source
references `selections_retire`, which line 244 defines only when
`retire_file_is_used` (mapping sentinel); that reference raises
UnboundLocalError and the surrounding handler aborts the run — embedded as the
`.error` case. -/
def sourceRetiree (retireMapped : Bool) (curr : Table) (uploaded : Option Table) :
    Except String (Table × Option Table) :=
  if retireMapped && curr.hasRetire then
    Except.ok ({ curr with rows := curr.rows.filter (fun r => r.retire.isNone) },
               some { curr with rows := curr.rows.filter (fun r => r.retire.isSome) })
  else
    match uploaded with
    | some f =>
      if retireMapped then Except.error "UnboundLocalError: selections_retire"
      else Except.ok (curr, some f)
    | none => Except.ok (curr, none)

/-! ## Key derivation (src/app.py lines 278-291, step 2) -/

/-- Embeds `use_emp_id_key` (line 279, extended at line 282): the employee-id column
is present in Prior and Current, and in the Retiree table when one exists. -/
def useEmpIdKey (p c : Table) (ret : Option Table) : Bool :=
  p.hasEmpId && c.hasEmpId && (match ret with | some r => r.hasEmpId | none => true)

/-- Embeds `df[_emp_id].astype(str)` on one cell: a NaN employee id prints as "nan". -/
def empKeyStr (r : Row) : String :=
  match r.empId with
  | some s => s
  | none => "nan"

/-- Embeds `dt.strftime('%Y%m%d').fillna('NODATE')` on one cell. -/
def fmtDateKey : Option Date → String
  | some d => fmtYmd d
  | none => "NODATE"

/-- Date-composite matching key (line 289). -/
def compositeKey (r : Row) : String := fmtDateKey r.hire ++ "_" ++ fmtDateKey r.birth

/-- A record together with its derived `_key` column. -/
structure KeyedRow where
  key : String
  row : Row
deriving DecidableEq, Repr

/-- Key derivation for one table (loop body, lines 285-290): with the
employee-id strategy every row is keyed by `astype(str)` of its employee id;
with the date-composite strategy the table must have both hire_date and
birth_date columns — otherwise the run aborts with an error naming the table
(`MissingKeyColumns`); each row is then keyed by the composite string. -/
def deriveKeysTable (useEmp : Bool) (name : String) (t : Table) :
    Except String (List KeyedRow) :=
  if useEmp then
    Except.ok (t.rows.map (fun r => ⟨empKeyStr r, r⟩))
  else if t.hasHire && t.hasBirth then
    Except.ok (t.rows.map (fun r => ⟨compositeKey r, r⟩))
  else
    Except.error name

/-! ## Key-duplication finding (src/app.py lines 293-295, step 3) -/

/-- Number of records in the table carrying key `k`. -/
def keyCount (rows : List KeyedRow) (k : String) : Nat :=
  rows.countP (fun r => decide (r.key = k))

/-- Embeds `df[df[_key].duplicated(keep=False)]`: all records whose key value occurs
at least twice in the table (every occurrence kept).  The subsequent
`sort_values(by=_key)` only permutes rows for display and is omitted. -/
def keyDupFindings (rows : List KeyedRow) : List KeyedRow :=
  rows.filter (fun r => decide (2 ≤ keyCount rows r.key))

/-! ## Age-at-hire rule (src/app.py lines 300-306) -/

/-- Embeds `(hire - birth).dt.days / 365.25`, exact (fractional years). -/
def ageYears (hire birth : Date) : ℚ :=
  ((daysFromCivil hire - daysFromCivil birth : Int) : ℚ) / (365.25 : ℚ)

/-- The flag condition `(age < 15) | (age >= 90)`. -/
def ageFlag (a : ℚ) : Bool := decide (a < 15) || decide ((90 : ℚ) ≤ a)

/-- Age-at-hire finding set for one table: runs only when both hire_date and
birth_date columns exist (`none` = check skipped); rows missing either date
are dropped (`dropna`), the rest are flagged by `ageFlag`. -/
def ageAtHireFindings (t : Table) : Option (List Row) :=
  if t.hasHire && t.hasBirth then
    some (t.rows.filter (fun r =>
      match r.hire, r.birth with
      | some h, some b => ageFlag (ageYears h b)
      | _, _ => false))
  else none

/-! ## Reconciler (src/app.py lines 325-327, 339-346, steps 4 and 4.8) -/

/-- The pandas merge indicator `_merge` value of one joined row. -/
inductive MergeTag
  | leftOnly
  | rightOnly
  | both
deriving DecidableEq, Repr

/-- One row of `pd.merge(df_prev, df_curr, on=_key, how='outer', indicator=True)`:
the key, the indicator, and the two sides (a side absent from the match has all
its cells NaN, embedded as `none`). -/
structure MergedRow where
  key : String
  tag : MergeTag
  prior : Option Row
  curr : Option Row
deriving DecidableEq, Repr

/-- Rows the left record `rp` contributes to the outer join: matched with every
right record sharing its key, or alone with indicator left_only when none does. -/
def joinLeft (c : List KeyedRow) (rp : KeyedRow) : List MergedRow :=
  let ms := c.filter (fun rc => decide (rc.key = rp.key))
  if ms.isEmpty then [⟨rp.key, MergeTag.leftOnly, some rp.row, none⟩]
  else ms.map (fun rc => ⟨rp.key, MergeTag.both, some rp.row, some rc.row⟩)

/-- Full outer join on `_key` with indicator (relational semantics: duplicated
keys Cartesian-expand; unmatched right records appear with indicator
right_only). -/
def outerJoin (p c : List KeyedRow) : List MergedRow :=
  p.flatMap (joinLeft c) ++
    ((c.filter (fun rc => p.all (fun rp => !decide (rp.key = rc.key)))).map
      (fun rc => ⟨rc.key, MergeTag.rightOnly, none, some rc.row⟩))

/-- Embeds `merged_st[merged_st['_merge'] == 'both']` (line 326). -/
def continuingOf (p c : List KeyedRow) : List MergedRow :=
  (outerJoin p c).filter (fun m => decide (m.tag = MergeTag.both))

/-- Embeds `merged_st[merged_st['_merge'] == 'right_only']` (line 326). -/
def newHiresOf (p c : List KeyedRow) : List MergedRow :=
  (outerJoin p c).filter (fun m => decide (m.tag = MergeTag.rightOnly))

/-- Embeds `merged_st[merged_st['_merge'] == 'left_only']` (line 326). -/
def retireeCandidatesOf (p c : List KeyedRow) : List MergedRow :=
  (outerJoin p c).filter (fun m => decide (m.tag = MergeTag.leftOnly))

/-- Keys of the joined rows carrying a given indicator value. -/
def keysWithTag (j : List MergedRow) (tg : MergeTag) : List String :=
  (j.filter (fun m => decide (m.tag = tg))).map (fun m => m.key)

/-- Embeds `merged_retire` (line 341): the candidates' key column outer-joined against
the retiree table (the left side carries keys only, embedded with a default
record). -/
def retireeJoin (cands : List MergedRow) (ret : List KeyedRow) : List MergedRow :=
  outerJoin (cands.map (fun m => ⟨m.key, {}⟩)) ret

/-- Line 342: candidates whose key is `isin` the left_only keys of
`merged_retire` (candidate without a retiree record). -/
def retireeMissing (cands : List MergedRow) (ret : List KeyedRow) : List MergedRow :=
  cands.filter (fun m => (keysWithTag (retireeJoin cands ret) MergeTag.leftOnly).contains m.key)

/-- Line 343: retiree records whose key is `isin` the right_only keys of
`merged_retire` (retiree record without a candidate). -/
def retireeSurplus (cands : List MergedRow) (ret : List KeyedRow) : List KeyedRow :=
  ret.filter (fun r => (keysWithTag (retireeJoin cands ret) MergeTag.rightOnly).contains r.key)

/-- Line 344: retiree records whose key is `isin` the both keys of
`merged_retire` (matched retiree). -/
def retireeMatched (cands : List MergedRow) (ret : List KeyedRow) : List KeyedRow :=
  ret.filter (fun r => (keysWithTag (retireeJoin cands ret) MergeTag.both).contains r.key)

/-! ## Basic-info mutation check (src/app.py lines 329-337, step 4.5) -/

/-- Elementwise pandas `!=` between two possibly-missing cells: a missing value
(NaT) compares unequal to everything, including another missing value. -/
def pandasNe (a b : Option Date) : Bool :=
  match a, b with
  | some x, some y => decide (x ≠ y)
  | _, _ => true

/-- Birth date of the prior-side record of a joined row. -/
def priorBirth (m : MergedRow) : Option Date :=
  match m.prior with
  | some r => r.birth
  | none => none

/-- Birth date of the current-side record of a joined row. -/
def currBirth (m : MergedRow) : Option Date :=
  match m.curr with
  | some r => r.birth
  | none => none

/-- Hire date of the prior-side record of a joined row. -/
def priorHire (m : MergedRow) : Option Date :=
  match m.prior with
  | some r => r.hire
  | none => none

/-- Hire date of the current-side record of a joined row. -/
def currHire (m : MergedRow) : Option Date :=
  match m.curr with
  | some r => r.hire
  | none => none

/-- Basic-info mutation check: runs only when the four suffixed columns
`_birth_date_前期`, `_birth_date_当期`, `_hire_date_前期`, `_hire_date_当期`
all exist in the continuing-employee frame — pandas suffixes only overlapping
names, so exactly when both input tables have both date columns; `none` embeds
the skip branch.  A continuing row is flagged when the pandas `!=` comparison
marks its birth dates or its hire dates as different. -/
def basicInfoFindings (p c : Table) (cont : List MergedRow) : Option (List MergedRow) :=
  if p.hasBirth && c.hasBirth && p.hasHire && c.hasHire then
    some (cont.filter (fun m =>
      pandasNe (priorBirth m) (currBirth m) || pandasNe (priorHire m) (currHire m)))
  else none

/-! ## Salary increase-rate check (src/app.py lines 354-356, step 5) -/

/-- salary1 of the prior-side record of a joined row. -/
def priorSal1 (m : MergedRow) : Option ℚ :=
  match m.prior with
  | some r => r.sal1
  | none => none

/-- salary1 of the current-side record of a joined row. -/
def currSal1 (m : MergedRow) : Option ℚ :=
  match m.curr with
  | some r => r.sal1
  | none => none

/-- Increase-rate check on the continuing set: after numeric coercion the rows
with either salary1 value null are dropped (`dropna`), and a remaining row is
flagged when current salary1 >= prior salary1 * (1 + x/100). -/
def salaryIncrease1 (cont : List MergedRow) (x : ℚ) : List MergedRow :=
  (cont.filter (fun m => (priorSal1 m).isSome && (currSal1 m).isSome)).filter
    (fun m => decide ((priorSal1 m).getD 0 * (1 + x / 100) ≤ (currSal1 m).getD 0))

/-! ## Pipeline (steps 1.5 through 5) -/

/-- The classification tables the Reconciler contributes to `results`: the
three top-level classes, and the second-level classes exactly when a retiree
table exists (`results['退職者候補']` stands alone otherwise). -/
structure ReconcileOut where
  continuing : List MergedRow
  newHires : List MergedRow
  retireeCandidates : List MergedRow
  missing : Option (List MergedRow)
  surplus : Option (List KeyedRow)
  matched : Option (List KeyedRow)
deriving DecidableEq, Repr

/-- Steps 4 and 4.8: classify the Prior/Current join, and classify the
candidates against the retiree table when one exists. -/
def reconcile (pk ck : List KeyedRow) (rk : Option (List KeyedRow)) : ReconcileOut :=
  let cands := retireeCandidatesOf pk ck
  { continuing := continuingOf pk ck
    newHires := newHiresOf pk ck
    retireeCandidates := cands
    missing := rk.map (fun r => retireeMissing cands r)
    surplus := rk.map (fun r => retireeSurplus cands r)
    matched := rk.map (fun r => retireeMatched cands r) }

/-- The findings and classifications assembled into `results` that the claims
reason about. -/
structure RunResults where
  keyDup : List (String × List KeyedRow)
  ageFindings : List (String × Option (List Row))
  recon : ReconcileOut
  basicInfo : Option (List MergedRow)
deriving DecidableEq, Repr

/-- The tables of the compared set in loop order (`dataframes`, lines 280-282):
Prior, Current, and Retiree when it exists. -/
def tableList (p c : Table) (ret : Option Table) : List (String × Table) :=
  [("前期末", p), ("当期末", c)] ++
    (match ret with | some r => [("退職者", r)] | none => [])

/-- Steps 2 through 4.5 on already-sourced tables: choose the key strategy
once, derive keys per table in loop order (the first table lacking the
date-composite columns aborts the run with its name), then build the findings
and classifications.  No `RunResults` value exists on the error path. -/
def runChecks (p c : Table) (ret : Option Table) : Except String RunResults := do
  let useEmp := useEmpIdKey p c ret
  let pk ← deriveKeysTable useEmp "前期末" p
  let ck ← deriveKeysTable useEmp "当期末" c
  let rk ← match ret with
    | some r => Except.map some (deriveKeysTable useEmp "退職者" r)
    | none => Except.ok none
  let recon := reconcile pk ck rk
  Except.ok
    { keyDup :=
        ([("前期末", pk), ("当期末", ck)] ++
          (match rk with | some l => [("退職者", l)] | none => [])).map
          (fun nt => (nt.1, keyDupFindings nt.2))
      ageFindings := [("前期末", ageAtHireFindings p), ("当期末", ageAtHireFindings c)]
      recon := recon
      basicInfo := basicInfoFindings p c recon.continuing }

/-- The whole core pipeline: retiree sourcing (step 1.5), enroll-date fallback
(step 1.8, applied to every table before key derivation), then `runChecks`. -/
def runApp (retireMapped : Bool) (p c : Table) (uploaded : Option Table) :
    Except String RunResults := do
  let (cKept, retTab) ← sourceRetiree retireMapped c uploaded
  runChecks (enrollFallback p) (enrollFallback cKept) (retTab.map enrollFallback)

/-! ## Concrete data used by counterexamples and witnesses -/

/-- A Prior table whose employee-id column exists but holds an empty cell. -/
def tblPriorNanId : Table := { hasEmpId := true, rows := [{ empId := none }] }

/-- A Current table with a normal employee id. -/
def tblCurrId : Table := { hasEmpId := true, rows := [{ empId := some "1" }] }

/-- A table with both date columns and one under-age hire. -/
def tblAge : Table :=
  { hasHire := true, hasBirth := true,
    rows := [{ hire := some ⟨2020, 1, 1⟩, birth := some ⟨2010, 1, 1⟩ }] }

/-- A table with an enroll-date column, a hire-date column and one null hire
cell. -/
def tblEnroll : Table :=
  { hasEnroll := true, hasHire := true,
    rows := [{ hire := none, enroll := some ⟨2001, 2, 3⟩ }] }

/-- A Current table with a retire-date column: one retiring row, one staying. -/
def tblCurrRet : Table :=
  { hasRetire := true,
    rows := [{ empId := some "1", retire := some ⟨2024, 3, 31⟩ }, { empId := some "2" }] }

/-- A table lacking both date columns (only an employee id column). -/
def tblNoDates : Table := { hasEmpId := true, rows := [{ empId := some "9" }] }

/-- A joined continuing row whose birth dates are missing on both sides and
whose hire dates agree on both sides. -/
def contRowNaT : MergedRow :=
  ⟨"k", MergeTag.both, some { hire := some ⟨2000, 4, 1⟩ }, some { hire := some ⟨2000, 4, 1⟩ }⟩

/-- Prior and Current one-row tables carrying the record behind `contRowNaT`. -/
def tblBasicP : Table :=
  { hasHire := true, hasBirth := true, rows := [{ hire := some ⟨2000, 4, 1⟩ }] }

/-- Current-side table for the basic-info counterexample. -/
def tblBasicC : Table :=
  { hasHire := true, hasBirth := true, rows := [{ hire := some ⟨2000, 4, 1⟩ }] }

/-- A continuing row with prior salary1 100000 and current salary1 s. -/
def contRowSal (s : ℚ) : MergedRow :=
  ⟨"k", MergeTag.both, some { sal1 := some 100000 }, some { sal1 := some s }⟩

/-! ## Helper lemmas -/

/-- The Boolean substring scan agrees with the standard infix relation. -/
theorem strContainsAux_iff (kw s : List Char) : strContainsAux kw s = true ↔ kw <:+: s := by
  induction s with
  | nil =>
    simp [strContainsAux, List.isEmpty_iff]
  | cons c t ih =>
    rw [strContainsAux]
    simp [List.infix_cons_iff, ih, List.isPrefixOf_iff_prefix, Or.comm]

/-- A successful header scan returns the first matching row index. -/
theorem findHeaderIndex_some (keywords : List String) (grid : List (List (Option String)))
    (i : Nat) (h : findHeaderIndex keywords grid = some i) :
    ∃ row, grid[i]? = some row ∧ rowMatches keywords row = true ∧
      ∀ j, j < i → ∀ row', grid[j]? = some row' → rowMatches keywords row' = false := by
  induction grid generalizing i with
  | nil => simp [findHeaderIndex] at h
  | cons r rest ih =>
    rw [findHeaderIndex] at h
    by_cases hm : rowMatches keywords r
    · simp [hm] at h
      subst h
      exact ⟨r, by simp, hm, by intro j hj; omega⟩
    · simp [hm] at h
      obtain ⟨i', hi', rfl⟩ := h
      obtain ⟨row, hrow, hmatch, hfirst⟩ := ih i' hi'
      refine ⟨row, by simpa using hrow, hmatch, ?_⟩
      intro j hj row' hrow'
      match j with
      | 0 =>
        simp at hrow'
        subst hrow'
        simpa using hm
      | j+1 => exact hfirst j (by omega) row' (by simpa using hrow')

/-- The header scan fails exactly when no row matches all keywords. -/
theorem findHeaderIndex_none (keywords : List String) (grid : List (List (Option String))) :
    findHeaderIndex keywords grid = none ↔ ∀ row ∈ grid, rowMatches keywords row = false := by
  induction grid with
  | nil => simp [findHeaderIndex]
  | cons r rest ih =>
    rw [findHeaderIndex]
    by_cases hm : rowMatches keywords r
    · simp [hm]
    · simp [hm, Option.map_eq_none, ih]

/-- Membership in the rows a left record contributes to the outer join. -/
theorem mem_joinLeft (c : List KeyedRow) (rp : KeyedRow) (m : MergedRow) :
    m ∈ joinLeft c rp ↔
      ((∀ rc ∈ c, rc.key ≠ rp.key) ∧ m = ⟨rp.key, MergeTag.leftOnly, some rp.row, none⟩) ∨
      (∃ rc ∈ c, rc.key = rp.key ∧ m = ⟨rp.key, MergeTag.both, some rp.row, some rc.row⟩) := by
  simp only [joinLeft]
  by_cases he : (c.filter (fun rc => decide (rc.key = rp.key))).isEmpty
  · rw [if_pos he]
    rw [List.isEmpty_iff, List.filter_eq_nil_iff] at he
    simp only [decide_eq_true_eq] at he
    simp only [List.mem_singleton]
    constructor
    · intro hm
      exact Or.inl ⟨he, hm⟩
    · rintro (⟨_, rfl⟩ | ⟨rc, hrc, hkey, rfl⟩)
      · rfl
      · exact absurd hkey (he rc hrc)
  · rw [if_neg he]
    rw [List.isEmpty_iff, List.filter_eq_nil_iff] at he
    push_neg at he
    simp only [decide_eq_true_eq] at he
    simp only [List.mem_map, List.mem_filter, decide_eq_true_eq]
    constructor
    · rintro ⟨rc, ⟨hrc, hkey⟩, rfl⟩
      exact Or.inr ⟨rc, hrc, hkey, rfl⟩
    · rintro (⟨hall, rfl⟩ | ⟨rc, hrc, hkey, rfl⟩)
      · obtain ⟨rc, hrc, hkey⟩ := he
        exact absurd hkey (by exact fun hk => (hall rc hrc) (by simpa using hk))
      · exact ⟨rc, ⟨hrc, hkey⟩, rfl⟩

/-- Membership in the outer join. -/
theorem mem_outerJoin (p c : List KeyedRow) (m : MergedRow) :
    m ∈ outerJoin p c ↔
      (∃ rp ∈ p, m ∈ joinLeft c rp) ∨
      (∃ rc ∈ c, (∀ rp ∈ p, rp.key ≠ rc.key) ∧
        m = ⟨rc.key, MergeTag.rightOnly, none, some rc.row⟩) := by
  simp only [outerJoin, List.mem_append, List.mem_flatMap, List.mem_map, List.mem_filter,
    List.all_eq_true, Bool.not_eq_true', decide_eq_false_iff_not]
  constructor
  · rintro (⟨rp, hrp, hm⟩ | ⟨rc, ⟨hrc, hall⟩, rfl⟩)
    · exact Or.inl ⟨rp, hrp, hm⟩
    · exact Or.inr ⟨rc, hrc, hall, rfl⟩
  · rintro (⟨rp, hrp, hm⟩ | ⟨rc, hrc, hall, rfl⟩)
    · exact Or.inl ⟨rp, hrp, hm⟩
    · exact Or.inr ⟨rc, ⟨hrc, hall⟩, rfl⟩

/-- A key appears with indicator both exactly when it appears on both sides. -/
theorem outerJoin_key_both (p c : List KeyedRow) (k : String) :
    (∃ m ∈ outerJoin p c, m.key = k ∧ m.tag = MergeTag.both) ↔
      (∃ r ∈ p, r.key = k) ∧ (∃ r ∈ c, r.key = k) := by
  constructor
  · rintro ⟨m, hm, hk, ht⟩
    rw [mem_outerJoin] at hm
    rcases hm with ⟨rp, hrp, hj⟩ | ⟨rc, _, _, rfl⟩
    · rw [mem_joinLeft] at hj
      rcases hj with ⟨_, rfl⟩ | ⟨rc, hrc, hkey, rfl⟩
      · simp at ht
      · simp only at hk
        exact ⟨⟨rp, hrp, hk⟩, ⟨rc, hrc, hkey.trans hk⟩⟩
    · simp at ht
  · rintro ⟨⟨rp, hrp, hkp⟩, ⟨rc, hrc, hkc⟩⟩
    subst hkp
    refine ⟨⟨rp.key, MergeTag.both, some rp.row, some rc.row⟩, ?_, rfl, rfl⟩
    rw [mem_outerJoin]
    exact Or.inl ⟨rp, hrp, by rw [mem_joinLeft]; exact Or.inr ⟨rc, hrc, hkc, rfl⟩⟩

/-- A key appears with indicator left_only exactly when it appears only in the
left table. -/
theorem outerJoin_key_left (p c : List KeyedRow) (k : String) :
    (∃ m ∈ outerJoin p c, m.key = k ∧ m.tag = MergeTag.leftOnly) ↔
      (∃ r ∈ p, r.key = k) ∧ ¬(∃ r ∈ c, r.key = k) := by
  constructor
  · rintro ⟨m, hm, hk, ht⟩
    rw [mem_outerJoin] at hm
    rcases hm with ⟨rp, hrp, hj⟩ | ⟨rc, _, _, rfl⟩
    · rw [mem_joinLeft] at hj
      rcases hj with ⟨hall, rfl⟩ | ⟨rc, hrc, hkey, rfl⟩
      · simp only at hk
        subst hk
        exact ⟨⟨rp, hrp, rfl⟩, fun ⟨rc, hrc, hkc⟩ => hall rc hrc hkc⟩
      · simp at ht
    · simp at ht
  · rintro ⟨⟨rp, hrp, hkp⟩, hnc⟩
    subst hkp
    refine ⟨⟨rp.key, MergeTag.leftOnly, some rp.row, none⟩, ?_, rfl, rfl⟩
    rw [mem_outerJoin]
    refine Or.inl ⟨rp, hrp, ?_⟩
    rw [mem_joinLeft]
    exact Or.inl ⟨fun rc hrc hkc => hnc ⟨rc, hrc, hkc⟩, rfl⟩

/-- A key appears with indicator right_only exactly when it appears only in
the right table. -/
theorem outerJoin_key_right (p c : List KeyedRow) (k : String) :
    (∃ m ∈ outerJoin p c, m.key = k ∧ m.tag = MergeTag.rightOnly) ↔
      (∃ r ∈ c, r.key = k) ∧ ¬(∃ r ∈ p, r.key = k) := by
  constructor
  · rintro ⟨m, hm, hk, ht⟩
    rw [mem_outerJoin] at hm
    rcases hm with ⟨rp, hrp, hj⟩ | ⟨rc, hrc, hall, rfl⟩
    · rw [mem_joinLeft] at hj
      rcases hj with ⟨_, rfl⟩ | ⟨rc, hrc, hkey, rfl⟩ <;> simp at ht
    · simp only at hk
      subst hk
      exact ⟨⟨rc, hrc, rfl⟩, fun ⟨rp, hrp, hkp⟩ => hall rp hrp hkp⟩
  · rintro ⟨⟨rc, hrc, hkc⟩, hnp⟩
    subst hkc
    refine ⟨⟨rc.key, MergeTag.rightOnly, none, some rc.row⟩, ?_, rfl, rfl⟩
    rw [mem_outerJoin]
    exact Or.inr ⟨rc, hrc, fun rp hrp hkp => hnp ⟨rp, hrp, hkp⟩, rfl⟩

/-- A key occurs among the continuing employees iff it occurs in both tables. -/
theorem hasKey_continuingOf (p c : List KeyedRow) (k : String) :
    (∃ m ∈ continuingOf p c, m.key = k) ↔
      (∃ r ∈ p, r.key = k) ∧ (∃ r ∈ c, r.key = k) := by
  rw [← outerJoin_key_both]
  unfold continuingOf
  constructor
  · rintro ⟨m, hm, rfl⟩
    simp only [List.mem_filter, decide_eq_true_eq] at hm
    exact ⟨m, hm.1, rfl, hm.2⟩
  · rintro ⟨m, hm, hk, ht⟩
    exact ⟨m, List.mem_filter.mpr ⟨hm, by simp [ht]⟩, hk⟩

/-- A key occurs among the new hires iff it occurs only in Current. -/
theorem hasKey_newHiresOf (p c : List KeyedRow) (k : String) :
    (∃ m ∈ newHiresOf p c, m.key = k) ↔
      (∃ r ∈ c, r.key = k) ∧ ¬(∃ r ∈ p, r.key = k) := by
  rw [← outerJoin_key_right]
  unfold newHiresOf
  constructor
  · rintro ⟨m, hm, rfl⟩
    simp only [List.mem_filter, decide_eq_true_eq] at hm
    exact ⟨m, hm.1, rfl, hm.2⟩
  · rintro ⟨m, hm, hk, ht⟩
    exact ⟨m, List.mem_filter.mpr ⟨hm, by simp [ht]⟩, hk⟩

/-- A key occurs among the retiree candidates iff it occurs only in Prior. -/
theorem hasKey_retireeCandidatesOf (p c : List KeyedRow) (k : String) :
    (∃ m ∈ retireeCandidatesOf p c, m.key = k) ↔
      (∃ r ∈ p, r.key = k) ∧ ¬(∃ r ∈ c, r.key = k) := by
  rw [← outerJoin_key_left]
  unfold retireeCandidatesOf
  constructor
  · rintro ⟨m, hm, rfl⟩
    simp only [List.mem_filter, decide_eq_true_eq] at hm
    exact ⟨m, hm.1, rfl, hm.2⟩
  · rintro ⟨m, hm, hk, ht⟩
    exact ⟨m, List.mem_filter.mpr ⟨hm, by simp [ht]⟩, hk⟩

/-- Membership in the key list extracted for one indicator value. -/
theorem keysWithTag_contains (j : List MergedRow) (tg : MergeTag) (k : String) :
    (keysWithTag j tg).contains k = true ↔ ∃ m ∈ j, m.key = k ∧ m.tag = tg := by
  simp only [keysWithTag, List.elem_iff, List.mem_map, List.mem_filter,
    decide_eq_true_eq]
  constructor
  · rintro ⟨m, ⟨hm, ht⟩, rfl⟩
    exact ⟨m, hm, rfl, ht⟩
  · rintro ⟨m, hm, rfl, ht⟩
    exact ⟨m, ⟨hm, ht⟩, rfl⟩

/-- The key column of the candidates side of merged_retire carries exactly the
candidates' keys. -/
theorem candKeys_map (cands : List MergedRow) (k : String) :
    (∃ r ∈ cands.map (fun m => (⟨m.key, {}⟩ : KeyedRow)), r.key = k) ↔
      ∃ m ∈ cands, m.key = k := by
  simp only [List.mem_map]
  constructor
  · rintro ⟨r, ⟨m, hm, rfl⟩, hk⟩
    exact ⟨m, hm, hk⟩
  · rintro ⟨m, hm, hk⟩
    exact ⟨⟨m.key, {}⟩, ⟨m, hm, rfl⟩, hk⟩

/-- A key occurs among the missing retirees iff it is a candidate key with no
retiree record. -/
theorem hasKey_retireeMissing (cands : List MergedRow) (ret : List KeyedRow) (k : String) :
    (∃ m ∈ retireeMissing cands ret, m.key = k) ↔
      (∃ m ∈ cands, m.key = k) ∧ ¬(∃ r ∈ ret, r.key = k) := by
  unfold retireeMissing retireeJoin
  constructor
  · rintro ⟨m, hm, rfl⟩
    simp only [List.mem_filter] at hm
    obtain ⟨hmc, hcont⟩ := hm
    rw [keysWithTag_contains, outerJoin_key_left] at hcont
    exact ⟨⟨m, hmc, rfl⟩, hcont.2⟩
  · rintro ⟨⟨m, hmc, rfl⟩, hnr⟩
    refine ⟨m, List.mem_filter.mpr ⟨hmc, ?_⟩, rfl⟩
    rw [keysWithTag_contains, outerJoin_key_left, candKeys_map]
    exact ⟨⟨m, hmc, rfl⟩, hnr⟩

/-- A key occurs among the surplus retirees iff it is a retiree key with no
candidate. -/
theorem hasKey_retireeSurplus (cands : List MergedRow) (ret : List KeyedRow) (k : String) :
    (∃ r ∈ retireeSurplus cands ret, r.key = k) ↔
      (∃ r ∈ ret, r.key = k) ∧ ¬(∃ m ∈ cands, m.key = k) := by
  unfold retireeSurplus retireeJoin
  constructor
  · rintro ⟨r, hr, rfl⟩
    simp only [List.mem_filter] at hr
    obtain ⟨hrr, hcont⟩ := hr
    rw [keysWithTag_contains, outerJoin_key_right] at hcont
    rw [candKeys_map] at hcont
    exact ⟨⟨r, hrr, rfl⟩, hcont.2⟩
  · rintro ⟨⟨r, hrr, rfl⟩, hnc⟩
    refine ⟨r, List.mem_filter.mpr ⟨hrr, ?_⟩, rfl⟩
    rw [keysWithTag_contains, outerJoin_key_right, candKeys_map]
    exact ⟨⟨r, hrr, rfl⟩, hnc⟩

/-- A key occurs among the matched retirees iff it is both a retiree key and a
candidate key. -/
theorem hasKey_retireeMatched (cands : List MergedRow) (ret : List KeyedRow) (k : String) :
    (∃ r ∈ retireeMatched cands ret, r.key = k) ↔
      (∃ r ∈ ret, r.key = k) ∧ (∃ m ∈ cands, m.key = k) := by
  unfold retireeMatched retireeJoin
  constructor
  · rintro ⟨r, hr, rfl⟩
    simp only [List.mem_filter] at hr
    obtain ⟨hrr, hcont⟩ := hr
    rw [keysWithTag_contains, outerJoin_key_both] at hcont
    rw [candKeys_map] at hcont
    exact ⟨⟨r, hrr, rfl⟩, hcont.1⟩
  · rintro ⟨⟨r, hrr, rfl⟩, hc⟩
    refine ⟨r, List.mem_filter.mpr ⟨hrr, ?_⟩, rfl⟩
    rw [keysWithTag_contains, outerJoin_key_both, candKeys_map]
    exact ⟨hc, ⟨r, hrr, rfl⟩⟩

/-! ## Claim theorems -/

/-- Claim C2: partition totality and exclusivity.  After the Prior/Current
outer join on key, every key occurring in Prior or Current belongs to exactly
one of the classes continuing (key in both), new hires (key only in Current),
retiree candidates (key only in Prior); and when a Retiree table exists,
every key occurring among the retiree candidates or in the Retiree table
falls into exactly one of matched / missing / surplus. -/
theorem claimC2_partition :
    (∀ (pk ck : List KeyedRow) (k : String),
      ((∃ r ∈ pk, r.key = k) ∨ (∃ r ∈ ck, r.key = k)) →
      (((∃ m ∈ continuingOf pk ck, m.key = k) ∧ ¬(∃ m ∈ newHiresOf pk ck, m.key = k) ∧
          ¬(∃ m ∈ retireeCandidatesOf pk ck, m.key = k)) ∨
       (¬(∃ m ∈ continuingOf pk ck, m.key = k) ∧ (∃ m ∈ newHiresOf pk ck, m.key = k) ∧
          ¬(∃ m ∈ retireeCandidatesOf pk ck, m.key = k)) ∨
       (¬(∃ m ∈ continuingOf pk ck, m.key = k) ∧ ¬(∃ m ∈ newHiresOf pk ck, m.key = k) ∧
          (∃ m ∈ retireeCandidatesOf pk ck, m.key = k)))) ∧
    (∀ (pk ck ret : List KeyedRow) (k : String),
      ((∃ m ∈ retireeCandidatesOf pk ck, m.key = k) ∨ (∃ r ∈ ret, r.key = k)) →
      (((∃ r ∈ retireeMatched (retireeCandidatesOf pk ck) ret, r.key = k) ∧
          ¬(∃ m ∈ retireeMissing (retireeCandidatesOf pk ck) ret, m.key = k) ∧
          ¬(∃ r ∈ retireeSurplus (retireeCandidatesOf pk ck) ret, r.key = k)) ∨
       (¬(∃ r ∈ retireeMatched (retireeCandidatesOf pk ck) ret, r.key = k) ∧
          (∃ m ∈ retireeMissing (retireeCandidatesOf pk ck) ret, m.key = k) ∧
          ¬(∃ r ∈ retireeSurplus (retireeCandidatesOf pk ck) ret, r.key = k)) ∨
       (¬(∃ r ∈ retireeMatched (retireeCandidatesOf pk ck) ret, r.key = k) ∧
          ¬(∃ m ∈ retireeMissing (retireeCandidatesOf pk ck) ret, m.key = k) ∧
          (∃ r ∈ retireeSurplus (retireeCandidatesOf pk ck) ret, r.key = k)))) := by
  constructor
  · intro pk ck k hk
    simp only [hasKey_continuingOf, hasKey_newHiresOf, hasKey_retireeCandidatesOf]
    by_cases hp : ∃ r ∈ pk, r.key = k
    · by_cases hc : ∃ r ∈ ck, r.key = k
      · exact Or.inl ⟨⟨hp, hc⟩, fun h => h.2 hp, fun h => h.2 hc⟩
      · exact Or.inr (Or.inr ⟨fun h => hc h.2, fun h => hc h.1, hp, hc⟩)
    · by_cases hc : ∃ r ∈ ck, r.key = k
      · exact Or.inr (Or.inl ⟨fun h => hp h.1, ⟨hc, hp⟩, fun h => hp h.1⟩)
      · exact absurd hk (by simp [hp, hc])
  · intro pk ck ret k hk
    simp only [hasKey_retireeMatched, hasKey_retireeMissing, hasKey_retireeSurplus]
    by_cases hC : ∃ m ∈ retireeCandidatesOf pk ck, m.key = k
    · by_cases hR : ∃ r ∈ ret, r.key = k
      · exact Or.inl ⟨⟨hR, hC⟩, fun h => h.2 hR, fun h => h.2 hC⟩
      · exact Or.inr (Or.inl ⟨fun h => hR h.1, ⟨hC, hR⟩, fun h => hR h.1⟩)
    · by_cases hR : ∃ r ∈ ret, r.key = k
      · exact Or.inr (Or.inr ⟨fun h => hC h.2, fun h => hC h.1, ⟨hR, hC⟩⟩)
      · exact absurd hk (by simp [hC, hR])

/-- Claim C2 witness: in a concrete run where the key "a" occurs in Prior
only and also in the Retiree table, the partition theorem places it among the
retiree candidates only, and among the matched retirees only. -/
theorem claimC2_witness :
    (¬(∃ m ∈ continuingOf [KeyedRow.mk "a" {}] ([] : List KeyedRow), m.key = "a") ∧
     ¬(∃ m ∈ newHiresOf [KeyedRow.mk "a" {}] ([] : List KeyedRow), m.key = "a") ∧
     (∃ m ∈ retireeCandidatesOf [KeyedRow.mk "a" {}] ([] : List KeyedRow), m.key = "a")) ∧
    ((∃ r ∈ retireeMatched (retireeCandidatesOf [KeyedRow.mk "a" {}] ([] : List KeyedRow))
        [KeyedRow.mk "a" {}], r.key = "a") ∧
     ¬(∃ m ∈ retireeMissing (retireeCandidatesOf [KeyedRow.mk "a" {}] ([] : List KeyedRow))
        [KeyedRow.mk "a" {}], m.key = "a") ∧
     ¬(∃ r ∈ retireeSurplus (retireeCandidatesOf [KeyedRow.mk "a" {}] ([] : List KeyedRow))
        [KeyedRow.mk "a" {}], r.key = "a")) := by
  constructor
  · rcases claimC2_partition.1 [KeyedRow.mk "a" {}] [] "a" (Or.inl (by decide))
      with h | h | h
    · exact absurd h.1 (by decide)
    · exact absurd h.2.1 (by decide)
    · exact h
  · rcases claimC2_partition.2 [KeyedRow.mk "a" {}] [] [KeyedRow.mk "a" {}] "a"
      (Or.inr (by decide)) with h | h | h
    · exact h
    · exact absurd h.2.1 (by decide)
    · exact absurd h.2.2 (by decide)

/-- Claim C4: key-duplication finding.  For each table independently, the
finding set contains exactly the records whose key value occurs at least
twice in that table (every occurrence kept); for a table with exactly k
records (k ≥ 2) sharing one key, the finding set keeps exactly those k
records. -/
theorem claimC4_keyDuplication :
    (∀ (rows : List KeyedRow) (r : KeyedRow),
        r ∈ keyDupFindings rows ↔ r ∈ rows ∧ 2 ≤ keyCount rows r.key) ∧
    (∀ (rows : List KeyedRow) (k : String) (n : Nat),
        keyCount rows k = n → 2 ≤ n →
        (keyDupFindings rows).filter (fun r => decide (r.key = k)) =
          rows.filter (fun r => decide (r.key = k))) := by
  constructor
  · intro rows r
    simp [keyDupFindings, List.mem_filter]
  · intro rows k n hn h2
    rw [keyDupFindings, List.filter_filter]
    apply List.filter_congr
    intro r _
    by_cases hk : r.key = k
    · have h2k : 2 ≤ keyCount rows k := by rw [hn]; exact h2
      simp [hk, h2k]
    · simp [hk]

/-- Claim C4 witness: a table of three records, two of which share the key
"d": the finding set keeps exactly those two, and membership matches the
occurs-at-least-twice test. -/
theorem claimC4_witness :
    (KeyedRow.mk "d" {} ∈ keyDupFindings [KeyedRow.mk "d" {}, KeyedRow.mk "e" {},
        KeyedRow.mk "d" {}] ↔
      KeyedRow.mk "d" {} ∈ [KeyedRow.mk "d" {}, KeyedRow.mk "e" {}, KeyedRow.mk "d" {}] ∧
        2 ≤ keyCount [KeyedRow.mk "d" {}, KeyedRow.mk "e" {}, KeyedRow.mk "d" {}] "d") ∧
    (keyDupFindings [KeyedRow.mk "d" {}, KeyedRow.mk "e" {}, KeyedRow.mk "d" {}]).filter
        (fun r => decide (r.key = "d")) =
      [KeyedRow.mk "d" {}, KeyedRow.mk "e" {}, KeyedRow.mk "d" {}].filter
        (fun r => decide (r.key = "d")) :=
  ⟨claimC4_keyDuplication.1 [KeyedRow.mk "d" {}, KeyedRow.mk "e" {}, KeyedRow.mk "d" {}]
      (KeyedRow.mk "d" {}),
   claimC4_keyDuplication.2 [KeyedRow.mk "d" {}, KeyedRow.mk "e" {}, KeyedRow.mk "d" {}]
      "d" 2 (by decide) (by decide)⟩

/-- Claim C5: the Header Locator scans rows top-to-bottom and returns the
0-based index of the first row such that every configured keyword is a
substring (case-sensitive, no normalization) of the concatenation of that
row's non-empty cell values in string form; if no row matches it reports
not-found (a hard stop for that table), never falling back to row 0 or any
other row.  The last conjunct identifies the Boolean substring test with the
standard infix relation on character lists. -/
theorem claimC5_headerLocator (keywords : List String) (grid : List (List (Option String))) :
    (∀ i, findHeaderIndex keywords grid = some i →
        ∃ row, grid[i]? = some row ∧ rowMatches keywords row = true ∧
          ∀ j, j < i → ∀ row', grid[j]? = some row' → rowMatches keywords row' = false) ∧
    (findHeaderIndex keywords grid = none ↔ ∀ row ∈ grid, rowMatches keywords row = false) ∧
    (∀ s kw : String, strContains s kw = true ↔ kw.data <:+: s.data) :=
  ⟨fun i h => findHeaderIndex_some keywords grid i h,
   findHeaderIndex_none keywords grid,
   fun s kw => strContainsAux_iff kw.data s.data⟩

/-- Claim C5 witness: on a concrete grid whose second row contains both
keywords, the locator returns index 1 and that row is the first match. -/
theorem claimC5_witness :
    (∃ row, [[some "title"], [some "入社年月日", none, some "生年月日"]][1]? = some row ∧
      rowMatches ["入社", "生年"] row = true ∧
      ∀ j, j < 1 → ∀ row', [[some "title"], [some "入社年月日", none, some "生年月日"]][j]? =
        some row' → rowMatches ["入社", "生年"] row' = false) :=
  (claimC5_headerLocator ["入社", "生年"]
      [[some "title"], [some "入社年月日", none, some "生年月日"]]).1 1 (by decide)

/-- Claim C3: age-at-hire rule.  For a table with both date columns, the check
runs; a record with both dates is flagged iff its fractional age
`(hire - birth).days / 365.25` is `< 15` or `>= 90`; records missing either
date are excluded; the boundary values 15.0 and 90.0 fall on the not-flagged
and flagged sides respectively; and the age is the exact (untruncated)
rational quotient. -/
theorem claimC3_ageRule (t : Table) (hh : t.hasHire = true) (hb : t.hasBirth = true) :
    ∃ l, ageAtHireFindings t = some l ∧
      (∀ r, r ∈ l ↔ r ∈ t.rows ∧ ∃ h b, r.hire = some h ∧ r.birth = some b ∧
          ageFlag (ageYears h b) = true) ∧
      ageFlag 15 = false ∧ ageFlag 90 = true ∧
      (∀ h b, ageYears h b =
        ((daysFromCivil h - daysFromCivil b : Int) : ℚ) / (365.25 : ℚ)) := by
  refine ⟨t.rows.filter (fun r =>
      match r.hire, r.birth with
      | some h, some b => ageFlag (ageYears h b)
      | _, _ => false), ?_, ?_, by decide, by decide, fun h b => rfl⟩
  · simp [ageAtHireFindings, hh, hb]
  · intro r
    rw [List.mem_filter]
    constructor
    · rintro ⟨hr, hpred⟩
      refine ⟨hr, ?_⟩
      rcases hhr : r.hire with _ | h
      · rw [hhr] at hpred
        simp at hpred
      · rcases hbr : r.birth with _ | b
        · rw [hhr, hbr] at hpred
          simp at hpred
        · rw [hhr, hbr] at hpred
          exact ⟨h, b, rfl, rfl, hpred⟩
    · rintro ⟨hr, h, b, hhr, hbr, hflag⟩
      refine ⟨hr, ?_⟩
      rw [hhr, hbr]
      exact hflag

/-- Claim C3 witness: the age rule applied to a concrete table whose single
record was hired at about age 10. -/
theorem claimC3_witness :
    tblAge.hasHire = true ∧ tblAge.hasBirth = true ∧
    (∃ l, ageAtHireFindings tblAge = some l ∧
      (∀ r, r ∈ l ↔ r ∈ tblAge.rows ∧ ∃ h b, r.hire = some h ∧ r.birth = some b ∧
          ageFlag (ageYears h b) = true) ∧
      ageFlag 15 = false ∧ ageFlag 90 = true ∧
      (∀ h b, ageYears h b =
        ((daysFromCivil h - daysFromCivil b : Int) : ℚ) / (365.25 : ℚ))) :=
  ⟨rfl, rfl, claimC3_ageRule tblAge rfl rfl⟩

/-- Claim C8: increase-rate boundary.  On the continuing-employee set a row
with both salary1 values numeric is flagged iff current salary1 is at least
prior salary1 times (1 + x/100); with prior 100000 and x = 5, a current
salary1 of 105000 is flagged and 104999 is not. -/
theorem claimC8_increaseRate :
    (∀ (cont : List MergedRow) (x : ℚ) (m : MergedRow),
        m ∈ salaryIncrease1 cont x ↔
          m ∈ cont ∧ ∃ sp sc, priorSal1 m = some sp ∧ currSal1 m = some sc ∧
            sp * (1 + x / 100) ≤ sc) ∧
    contRowSal 105000 ∈ salaryIncrease1 [contRowSal 105000] 5 ∧
    salaryIncrease1 [contRowSal 104999] 5 = [] := by
  refine ⟨?_, ?_, ?_⟩
  · intro cont x m
    simp only [salaryIncrease1, List.mem_filter, Bool.and_eq_true, decide_eq_true_eq]
    constructor
    · rintro ⟨⟨hm, hps, hcs⟩, hle⟩
      rcases Option.isSome_iff_exists.mp hps with ⟨sp, hsp⟩
      rcases Option.isSome_iff_exists.mp hcs with ⟨sc, hsc⟩
      refine ⟨hm, sp, sc, hsp, hsc, ?_⟩
      simpa [hsp, hsc] using hle
    · rintro ⟨hm, sp, sc, hsp, hsc, hle⟩
      refine ⟨⟨hm, by simp [hsp], by simp [hsc]⟩, ?_⟩
      simp only [hsp, hsc, Option.getD_some]
      exact hle
  · simp only [salaryIncrease1, contRowSal, priorSal1, currSal1, List.filter,
      Option.isSome_some, Bool.and_self, decide_eq_true_eq, Option.getD_some]
    norm_num
  · simp only [salaryIncrease1, contRowSal, priorSal1, currSal1, List.filter,
      Option.isSome_some, Bool.and_self, decide_eq_true_eq, Option.getD_some]
    norm_num

/-- Claim C10: enroll-date fallback.  For a table with an enroll_date column,
after the fallback the enroll_date column is gone and a hire_date column
exists; with a pre-existing hire_date column every null hire cell takes that
row's enroll value; without one the enroll column becomes the hire column;
every resulting cell has no enroll value; and the key formulas never read the
enroll field, so the dropped column cannot reach key derivation. -/
theorem claimC10_enrollFallback (t : Table) (he : t.hasEnroll = true) :
    (enrollFallback t).hasEnroll = false ∧
    (enrollFallback t).hasHire = true ∧
    (t.hasHire = true →
      (enrollFallback t).rows = t.rows.map (fun r =>
        { r with hire := (match r.hire with | some h => some h | none => r.enroll),
                 enroll := none })) ∧
    (t.hasHire = false →
      (enrollFallback t).rows = t.rows.map (fun r =>
        { r with hire := r.enroll, enroll := none })) ∧
    (∀ r ∈ (enrollFallback t).rows, r.enroll = none) ∧
    (∀ (r : Row) (e : Option Date),
      compositeKey { r with enroll := e } = compositeKey r ∧
      empKeyStr { r with enroll := e } = empKeyStr r) := by
  by_cases hh : t.hasHire
  · refine ⟨?_, ?_, ?_, ?_, ?_, ?_⟩
    · simp [enrollFallback, he, hh]
    · simp [enrollFallback, he, hh]
    · intro _
      simp [enrollFallback, he, hh]
    · intro hcon
      rw [hh] at hcon
      cases hcon
    · intro r hr
      simp only [enrollFallback, he, hh, if_true, List.mem_map] at hr
      obtain ⟨x, _, rfl⟩ := hr
      rfl
    · intro r e
      exact ⟨rfl, rfl⟩
  · refine ⟨?_, ?_, ?_, ?_, ?_, ?_⟩
    · simp [enrollFallback, he, hh]
    · simp [enrollFallback, he, hh]
    · intro hcon
      rw [hcon] at hh
      exact absurd rfl hh
    · intro _
      simp [enrollFallback, he, hh]
    · intro r hr
      simp only [enrollFallback, he, hh] at hr
      simp only [if_true, if_false, Bool.false_eq_true, List.mem_map] at hr
      obtain ⟨x, _, rfl⟩ := hr
      rfl
    · intro r e
      exact ⟨rfl, rfl⟩

/-- Claim C10 witness: the fallback applied to a concrete table with an
enroll-date column and a null hire cell. -/
theorem claimC10_witness :
    tblEnroll.hasEnroll = true ∧
    ((enrollFallback tblEnroll).hasEnroll = false ∧
    (enrollFallback tblEnroll).hasHire = true ∧
    (tblEnroll.hasHire = true →
      (enrollFallback tblEnroll).rows = tblEnroll.rows.map (fun r =>
        { r with hire := (match r.hire with | some h => some h | none => r.enroll),
                 enroll := none })) ∧
    (tblEnroll.hasHire = false →
      (enrollFallback tblEnroll).rows = tblEnroll.rows.map (fun r =>
        { r with hire := r.enroll, enroll := none })) ∧
    (∀ r ∈ (enrollFallback tblEnroll).rows, r.enroll = none) ∧
    (∀ (r : Row) (e : Option Date),
      compositeKey { r with enroll := e } = compositeKey r ∧
      empKeyStr { r with enroll := e } = empKeyStr r)) :=
  ⟨rfl, claimC10_enrollFallback tblEnroll rfl⟩

/-- Claim C1 counterexample: the employee-id column is present in both
required tables, but the Prior record's id cell is empty; the code still
chooses the employee-id strategy (line 279 tests column presence only) and
keys the empty cell as "nan".  This refutes the claimed iff "used exactly when
present AND non-empty in every table": here the strategy is used although not
every table's employee-id values are non-empty. -/
theorem claimC1_counterexample :
    useEmpIdKey tblPriorNanId tblCurrId none = true ∧
    tblPriorNanId.rows.all (fun r => r.empId.isSome) = false ∧
    deriveKeysTable (useEmpIdKey tblPriorNanId tblCurrId none) "前期末" tblPriorNanId =
      Except.ok [⟨"nan", { empId := none }⟩] :=
  ⟨rfl, rfl, rfl⟩

/-- Claim C1 (amended): the employee-id key strategy is used iff the
employee-id column is present in every table in the compared set (values,
empty or not, are not consulted); whichever strategy is chosen, every
successfully keyed table keys every row by that one strategy (employee id as
string, or the date composite with the NODATE sentinel), so strategies are
never mixed across tables. -/
theorem claimC1_amended (p c : Table) (ret : Option Table) :
    (useEmpIdKey p c ret = true ↔
      (p.hasEmpId = true ∧ c.hasEmpId = true ∧ ∀ r ∈ ret.toList, r.hasEmpId = true)) ∧
    (∀ (name : String) (t : Table) (ks : List KeyedRow),
      deriveKeysTable (useEmpIdKey p c ret) name t = Except.ok ks →
      ∀ kr ∈ ks, kr.key =
        (if useEmpIdKey p c ret = true then empKeyStr kr.row else compositeKey kr.row)) ∧
    (∀ r : Row, compositeKey r = fmtDateKey r.hire ++ "_" ++ fmtDateKey r.birth) ∧
    fmtDateKey none = "NODATE" := by
  refine ⟨?_, ?_, fun r => rfl, rfl⟩
  · cases ret with
    | none => simp [useEmpIdKey]
    | some rt => simp [useEmpIdKey, and_assoc]
  · intro name t ks
    cases hu : useEmpIdKey p c ret with
    | true =>
      intro hks kr hkr
      simp only [deriveKeysTable, if_true] at hks
      injection hks with hks
      subst hks
      obtain ⟨r, _, rfl⟩ := List.mem_map.mp hkr
      simp
    | false =>
      intro hks kr hkr
      simp only [deriveKeysTable, Bool.false_eq_true, if_false] at hks
      by_cases hcols : (t.hasHire && t.hasBirth) = true
      · rw [if_pos hcols] at hks
        injection hks with hks
        subst hks
        obtain ⟨r, _, rfl⟩ := List.mem_map.mp hkr
        simp
      · rw [if_neg hcols] at hks
        cases hks

/-- Claim C1 witness: the uniform-keying clause of the amended claim applied
to a concrete employee-id run. -/
theorem claimC1_witness :
    KeyedRow.key ⟨"1", { empId := some "1" }⟩ =
      (if useEmpIdKey tblCurrId tblCurrId none = true
       then empKeyStr (KeyedRow.row ⟨"1", { empId := some "1" }⟩)
       else compositeKey (KeyedRow.row ⟨"1", { empId := some "1" }⟩)) :=
  (claimC1_amended tblCurrId tblCurrId none).2.1 "当期末" tblCurrId
    [⟨"1", { empId := some "1" }⟩] rfl ⟨"1", { empId := some "1" }⟩ (by simp)

/-- Claim C7 counterexample: a continuing employee whose birth date is missing
on both sides and whose hire dates are present and equal.  The claim says such
a record (equal dates "including the handling of missing values on both
sides") is not flagged, but pandas `!=` treats NaT as unequal to NaT, so the
code flags it: the basic-info finding set is exactly this row even though the
prior and current cells are equal as optional values. -/
theorem claimC7_counterexample :
    basicInfoFindings tblBasicP tblBasicC
        (continuingOf [⟨"k", { hire := some ⟨2000, 4, 1⟩ }⟩]
          [⟨"k", { hire := some ⟨2000, 4, 1⟩ }⟩]) = some [contRowNaT] ∧
    priorBirth contRowNaT = currBirth contRowNaT ∧
    priorHire contRowNaT = currHire contRowNaT :=
  ⟨rfl, rfl, rfl⟩

/-- Claim C7 (amended): when both tables carry both date columns, a continuing
employee is flagged iff the pandas inequality test marks the birth dates or
the hire dates as different, where a missing value is unequal to everything —
including another missing value; equivalently, a row is unflagged exactly when
birth and hire are present and equal on both sides. -/
theorem claimC7_amended (p c : Table) (cont : List MergedRow)
    (hpb : p.hasBirth = true) (hcb : c.hasBirth = true)
    (hph : p.hasHire = true) (hch : c.hasHire = true) :
    ∃ l, basicInfoFindings p c cont = some l ∧
      (∀ m, m ∈ l ↔ m ∈ cont ∧
        (pandasNe (priorBirth m) (currBirth m) || pandasNe (priorHire m) (currHire m)) = true) ∧
      pandasNe none none = true ∧
      (∀ d d' : Date, pandasNe (some d) (some d') = decide (d ≠ d')) := by
  refine ⟨cont.filter (fun m =>
      pandasNe (priorBirth m) (currBirth m) || pandasNe (priorHire m) (currHire m)),
    ?_, ?_, rfl, fun d d' => rfl⟩
  · simp [basicInfoFindings, hpb, hcb, hph, hch]
  · intro m
    rw [List.mem_filter]

/-- Claim C7 witness: the amended flagging rule applied to the concrete
continuing row with both birth cells missing. -/
theorem claimC7_witness :
    tblBasicP.hasBirth = true ∧ tblBasicC.hasBirth = true ∧
    tblBasicP.hasHire = true ∧ tblBasicC.hasHire = true ∧
    (∃ l, basicInfoFindings tblBasicP tblBasicC [contRowNaT] = some l ∧
      (∀ m, m ∈ l ↔ m ∈ [contRowNaT] ∧
        (pandasNe (priorBirth m) (currBirth m) || pandasNe (priorHire m) (currHire m)) = true) ∧
      pandasNe none none = true ∧
      (∀ d d' : Date, pandasNe (some d) (some d') = decide (d ≠ d'))) :=
  ⟨rfl, rfl, rfl, rfl, claimC7_amended tblBasicP tblBasicC [contRowNaT] rfl rfl rfl rfl⟩

/-- Claim C6: retiree-table sourcing mutual exclusivity.  When the Current
table's mapped retire-date column exists (mapping non-sentinel and the column
present after renaming), the Retiree table is exactly the rows of Current
with a non-null retire date, those rows are removed from Current, and any
uploaded retiree file is ignored (the result does not depend on it).  When
the mapping is the sentinel, the uploaded file (if any) becomes the Retiree
table and Current is untouched.  When the mapping is non-sentinel but the
column is absent, an uploaded file still never becomes the Retiree table (the
run aborts on the unbound `selections_retire`).  With no retiree table at
all, the reconciler attempts no second-level classification and the retiree
candidates stand alone. -/
theorem claimC6_retireeSourcing (retireMapped : Bool) (curr : Table)
    (uploaded : Option Table) :
    ((retireMapped && curr.hasRetire) = true →
      sourceRetiree retireMapped curr uploaded =
        Except.ok ({ curr with rows := curr.rows.filter (fun r => r.retire.isNone) },
                   some { curr with rows := curr.rows.filter (fun r => r.retire.isSome) }) ∧
      ∀ up₂, sourceRetiree retireMapped curr uploaded = sourceRetiree retireMapped curr up₂) ∧
    (retireMapped = false →
      sourceRetiree retireMapped curr uploaded = Except.ok (curr, uploaded)) ∧
    (retireMapped = true → curr.hasRetire = false →
      (∀ f, sourceRetiree retireMapped curr (some f) =
        Except.error "UnboundLocalError: selections_retire") ∧
      sourceRetiree retireMapped curr none = Except.ok (curr, none)) ∧
    (∀ pk ck : List KeyedRow,
      (reconcile pk ck none).missing = none ∧ (reconcile pk ck none).surplus = none ∧
      (reconcile pk ck none).matched = none ∧
      (reconcile pk ck none).retireeCandidates = retireeCandidatesOf pk ck) := by
  refine ⟨?_, ?_, ?_, fun pk ck => ⟨rfl, rfl, rfl, rfl⟩⟩
  · intro hcond
    constructor
    · simp [sourceRetiree, hcond]
    · intro up₂
      simp [sourceRetiree, hcond]
  · intro hm
    subst hm
    cases uploaded with
    | none => simp [sourceRetiree]
    | some f => simp [sourceRetiree]
  · intro hm hcol
    subst hm
    refine ⟨fun f => ?_, ?_⟩
    · simp [sourceRetiree, hcol]
    · simp [sourceRetiree, hcol]

/-- Claim C6 witness: the extraction branch on a concrete Current table with
one retiring row. -/
theorem claimC6_witness :
    (true && tblCurrRet.hasRetire) = true ∧
    (sourceRetiree true tblCurrRet none =
      Except.ok ({ tblCurrRet with rows := tblCurrRet.rows.filter (fun r => r.retire.isNone) },
                 some { tblCurrRet with
                        rows := tblCurrRet.rows.filter (fun r => r.retire.isSome) }) ∧
     ∀ up₂, sourceRetiree true tblCurrRet none = sourceRetiree true tblCurrRet up₂) :=
  ⟨rfl, (claimC6_retireeSourcing true tblCurrRet none).1 rfl⟩

/-- Claim C9: when the date-composite strategy is in use and some table in
the compared set lacks a hire-date or birth-date column entirely, the run
aborts with an error naming the first such table, and no findings,
classification or report value is produced (`runChecks` yields no
`RunResults`). -/
theorem claimC9_missingKeyColumns (p c : Table) (ret : Option Table)
    (hu : useEmpIdKey p c ret = false) (name : String) (t : Table)
    (hfind : (tableList p c ret).find?
      (fun nt => !(nt.2.hasHire && nt.2.hasBirth)) = some (name, t)) :
    runChecks p c ret = Except.error name := by
  cases hp : p.hasHire && p.hasBirth with
  | false =>
    simp only [tableList, List.find?] at hfind
    rw [hp] at hfind
    simp only [Bool.not_false] at hfind
    injection hfind with hfind
    obtain ⟨rfl, rfl⟩ := Prod.mk.injEq .. ▸ And.intro (congrArg Prod.fst hfind).symm
      (congrArg Prod.snd hfind).symm
    simp [runChecks, deriveKeysTable, hu, hp, Bind.bind, Except.bind]
  | true =>
    cases hc : c.hasHire && c.hasBirth with
    | false =>
      simp only [tableList, List.find?] at hfind
      rw [hp, hc] at hfind
      simp only [Bool.not_false, Bool.not_true] at hfind
      injection hfind with hfind
      obtain ⟨rfl, rfl⟩ := Prod.mk.injEq .. ▸ And.intro (congrArg Prod.fst hfind).symm
        (congrArg Prod.snd hfind).symm
      simp [runChecks, deriveKeysTable, hu, hp, hc, Bind.bind, Except.bind]
    | true =>
      cases ret with
      | none =>
        simp [tableList, List.find?, hp, hc] at hfind
      | some rt =>
        cases hr : rt.hasHire && rt.hasBirth with
        | false =>
          simp only [tableList, List.find?] at hfind
          rw [hp, hc, hr] at hfind
          simp only [Bool.not_false, Bool.not_true] at hfind
          injection hfind with hfind
          obtain ⟨rfl, rfl⟩ := Prod.mk.injEq .. ▸ And.intro (congrArg Prod.fst hfind).symm
            (congrArg Prod.snd hfind).symm
          simp [runChecks, deriveKeysTable, hu, hp, hc, hr, Bind.bind, Except.bind,
            Except.map]
        | true =>
          simp [tableList, List.find?, hp, hc, hr] at hfind

/-- Claim C9 witness: a concrete run using the date-composite strategy where
the Current table lacks both date columns aborts naming the Current table. -/
theorem claimC9_witness :
    useEmpIdKey tblAge tblNoDates none = false ∧
    (tableList tblAge tblNoDates none).find?
      (fun nt => !(nt.2.hasHire && nt.2.hasBirth)) = some ("当期末", tblNoDates) ∧
    runChecks tblAge tblNoDates none = Except.error "当期末" :=
  ⟨rfl, rfl, claimC9_missingKeyColumns tblAge tblNoDates none rfl "当期末" tblNoDates rfl⟩

end DataCheckApp
